import Mathlib

set_option maxRecDepth 4000

/-!
Shallow embedding of the blog-summarizer selection-and-summarization core:
the news selector (src/feeds/selector.py) and the summarization client's
response validation / retry machinery (src/summarizer/gemini_client.py).

Python strings are modelled as `List Char` (sequences of code points),
Python floats as exact rationals, timestamps as integer seconds, and the
current clock time as an explicit parameter.
-/

namespace BlogSummarizer

/-- Feed item record, mirroring the pydantic model `FeedItem` in
src/feeds/models.py.  `publishedDate` is seconds since an arbitrary epoch. -/
structure FeedItem where
  id : List Char
  feed_url : List Char
  title : List Char
  link : List Char
  dsc : Option (List Char)
  publishedDate : Option Int
  image_url : Option (List Char)
  category : List Char
  source_name : Option (List Char)
deriving DecidableEq, Repr

/-- One entry of the feeds configuration (config.FeedConfig.feeds): the
category label and the optional `priority` key (absent key modelled as
`none`, read with default 1.0 as in `feed.get("priority", 1.0)`). -/
structure FeedConf where
  category : List Char
  priority : Option ℚ
deriving DecidableEq, Repr

/-- Python truthiness of `item.image_url`: non-None and non-empty, as used
both by `_has_image_bonus` and the selector's image filter. -/
def hasImage (item : FeedItem) : Bool :=
  match item.image_url with
  | none => false
  | some s => s ≠ []

/-- NewsSelector._calculate_recency_score: piecewise step function of
`now - published_date`; items without a date score 0.5. -/
def calculate_recency_score (now : Int) (item : FeedItem) : ℚ :=
  match item.publishedDate with
  | none => 1/2
  | some pub =>
    let age : Int := now - pub
    if age < 3600 then 1
    else if age < 21600 then 9/10
    else if age < 43200 then 8/10
    else if age < 86400 then 7/10
    else if age < 172800 then 1/2
    else if age < 604800 then 3/10
    else 1/10

/-- NewsSelector._get_source_priority: priority of the first configured feed
whose category matches the item's, defaulting to 1.0. -/
def get_source_priority (feeds : List FeedConf) (item : FeedItem) : ℚ :=
  match feeds.find? (fun f => f.category = item.category) with
  | some f => f.priority.getD 1
  | none => 1

/-- NewsSelector._has_image_bonus: 1.2 with an image URL, else 1.0. -/
def has_image_bonus (item : FeedItem) : ℚ :=
  if hasImage item then 12/10 else 1

/-- NewsSelector._description_quality_score: length-bucketed score of the
description; a missing (or empty, which is falsy in Python) description
scores 0.5. -/
def description_quality_score (item : FeedItem) : ℚ :=
  match item.dsc with
  | none => 1/2
  | some d =>
    if d = [] then 1/2
    else if d.length < 50 then 6/10
    else if d.length < 100 then 8/10
    else if d.length < 500 then 1
    else 9/10

/-- Python's `round(x, 4)`: round to 4 decimal digits, ties to even. -/
def pyRound4 (x : ℚ) : ℚ :=
  let y := x * 10000
  let f : ℤ := ⌊y⌋
  let r : ℚ := y - f
  let n : ℤ :=
    if r < 1/2 then f
    else if (1/2 : ℚ) < r then f + 1
    else if f % 2 = 0 then f else f + 1
  (n : ℚ) / 10000

/-- NewsSelector.calculate_score: weighted combination of recency and
quality with a 0.3 base term, multiplied by source priority and image
bonus, rounded to 4 decimal digits. -/
def calculate_score (feeds : List FeedConf) (now : Int) (item : FeedItem) : ℚ :=
  let recency := calculate_recency_score now item
  let priority := get_source_priority feeds item
  let image_bonus := has_image_bonus item
  let quality := description_quality_score item
  pyRound4 ((recency * (4/10) + quality * (3/10) + 3/10) * priority * image_bonus)

/-- Stable descending insertion used to model Python's stable
`sorted(..., key=score, reverse=True)`: the new pair goes in front of the
first existing pair whose score is not larger. -/
def insertDesc (p : FeedItem × ℚ) : List (FeedItem × ℚ) → List (FeedItem × ℚ)
  | [] => [p]
  | q :: rest => if q.2 ≤ p.2 then p :: q :: rest else q :: insertDesc p rest

/-- NewsSelector.rank_items: score every item and stable-sort the pairs by
score, descending. -/
def rank_items (feeds : List FeedConf) (now : Int) (items : List FeedItem) :
    List (FeedItem × ℚ) :=
  (items.map (fun i => (i, calculate_score feeds now i))).foldr insertDesc []

/-- Number of already-selected items of a given category; this is the value
the Python `category_counts` defaultdict holds for that key. -/
def countCat (c : List Char) (sel : List FeedItem) : Nat :=
  (sel.filter (fun i => i.category = c)).length

/-- Diversity pass of NewsSelector.ensure_category_diversity: walk the ranked
list, admitting an item only while its category count is below the cap,
stopping once `topN` items are admitted. -/
def diversityPass (topN maxPer : Nat) : List (FeedItem × ℚ) → List FeedItem → List FeedItem
  | [], sel => sel
  | (item, _) :: rest, sel =>
    if topN ≤ sel.length then sel
    else if maxPer ≤ countCat item.category sel then diversityPass topN maxPer rest sel
    else diversityPass topN maxPer rest (sel ++ [item])

/-- Backfill loop of NewsSelector.ensure_category_diversity: append remaining
ranked items not already selected, breaking once `topN` is reached. -/
def backfill (topN : Nat) : List (FeedItem × ℚ) → List FeedItem → List FeedItem
  | [], sel => sel
  | (item, _) :: rest, sel =>
    let sel' := if item ∈ sel then sel else sel ++ [item]
    if topN ≤ sel'.length then sel' else backfill topN rest sel'

/-- NewsSelector.ensure_category_diversity: short lists pass through whole;
otherwise run the capped diversity pass and backfill an under-filled quota. -/
def ensure_category_diversity (scored : List (FeedItem × ℚ)) (topN : Nat) :
    List FeedItem :=
  if scored.length ≤ topN then scored.map Prod.fst
  else
    let maxPer := max 2 (topN / 2)
    let selected := diversityPass topN maxPer scored []
    if selected.length < topN then backfill topN scored selected else selected

/-- NewsSelector.select_top_items.  The Python default `top_n = top_n or
settings.top_n_items` treats a falsy argument (0 or None) as unset, so a
zero `topN` is replaced by the configured `settingsTopN`. -/
def select_top_items (feeds : List FeedConf) (settingsTopN : Nat) (now : Int)
    (items : List FeedItem) (topN : Nat) : List FeedItem :=
  let topN := if topN = 0 then settingsTopN else topN
  if items = [] then []
  else
    let itemsWithImages := items.filter hasImage
    if itemsWithImages = [] then []
    else
      let ranked := rank_items feeds now itemsWithImages
      ensure_category_diversity ranked topN

/-! Helper lemmas about the selector. -/

theorem insertDesc_perm (p : FeedItem × ℚ) (l : List (FeedItem × ℚ)) :
    List.Perm (insertDesc p l) (p :: l) := by
  induction l with
  | nil => simp [insertDesc]
  | cons q rest ih =>
    simp only [insertDesc]
    split
    · exact List.Perm.refl _
    · exact ((ih.cons q).trans (List.Perm.swap p q rest))

theorem rank_items_perm (feeds : List FeedConf) (now : Int) (items : List FeedItem) :
    List.Perm (rank_items feeds now items)
      (items.map (fun i => (i, calculate_score feeds now i))) := by
  unfold rank_items
  generalize items.map (fun i => (i, calculate_score feeds now i)) = l
  induction l with
  | nil => simp
  | cons p rest ih =>
    simpa using (insertDesc_perm p (rest.foldr insertDesc [])).trans (ih.cons p)

theorem mem_rank_items {feeds : List FeedConf} {now : Int} {items : List FeedItem}
    {x : FeedItem} (h : x ∈ (rank_items feeds now items).map Prod.fst) : x ∈ items := by
  have hp := (rank_items_perm feeds now items).map Prod.fst
  rw [hp.mem_iff] at h
  simp only [List.map_map, List.mem_map] at h
  obtain ⟨i, hi, rfl⟩ := h
  exact hi

theorem mem_diversityPass {topN maxPer : Nat} :
    ∀ (l : List (FeedItem × ℚ)) (sel : List FeedItem) (x : FeedItem),
    x ∈ diversityPass topN maxPer l sel → x ∈ sel ∨ x ∈ l.map Prod.fst
  | [], sel, x, h => Or.inl h
  | (item, s) :: rest, sel, x, h => by
    simp only [diversityPass] at h
    split at h
    · exact Or.inl h
    · split at h
      · rcases mem_diversityPass rest sel x h with h' | h'
        · exact Or.inl h'
        · exact Or.inr (by simp [h'])
      · rcases mem_diversityPass rest (sel ++ [item]) x h with h' | h'
        · rcases List.mem_append.mp h' with h'' | h''
          · exact Or.inl h''
          · exact Or.inr (by simp at h''; simp [h''])
        · exact Or.inr (by simp [h'])

theorem mem_backfill {topN : Nat} :
    ∀ (l : List (FeedItem × ℚ)) (sel : List FeedItem) (x : FeedItem),
    x ∈ backfill topN l sel → x ∈ sel ∨ x ∈ l.map Prod.fst
  | [], sel, x, h => Or.inl h
  | (item, s) :: rest, sel, x, h => by
    simp only [backfill] at h
    by_cases hmem : item ∈ sel
    · simp only [if_pos hmem] at h
      split at h
      · exact Or.inl h
      · rcases mem_backfill rest sel x h with h' | h'
        · exact Or.inl h'
        · exact Or.inr (by simp [h'])
    · simp only [if_neg hmem] at h
      split at h
      · rcases List.mem_append.mp h with h'' | h''
        · exact Or.inl h''
        · exact Or.inr (by simp at h''; simp [h''])
      · rcases mem_backfill rest (sel ++ [item]) x h with h' | h'
        · rcases List.mem_append.mp h' with h'' | h''
          · exact Or.inl h''
          · exact Or.inr (by simp at h''; simp [h''])
        · exact Or.inr (by simp [h'])

theorem ensure_category_diversity_eq (scored : List (FeedItem × ℚ)) (topN : Nat) :
    ensure_category_diversity scored topN =
      if scored.length ≤ topN then scored.map Prod.fst
      else if (diversityPass topN (max 2 (topN / 2)) scored []).length < topN then
        backfill topN scored (diversityPass topN (max 2 (topN / 2)) scored [])
      else diversityPass topN (max 2 (topN / 2)) scored [] := rfl

theorem mem_ensure_category_diversity {scored : List (FeedItem × ℚ)} {topN : Nat}
    {x : FeedItem} (h : x ∈ ensure_category_diversity scored topN) :
    x ∈ scored.map Prod.fst := by
  rw [ensure_category_diversity_eq] at h
  split at h
  · exact h
  · split at h
    · rcases mem_backfill scored _ x h with h' | h'
      · rcases mem_diversityPass scored [] x h' with h'' | h''
        · simp at h''
        · exact h''
      · exact h'
    · rcases mem_diversityPass scored [] x h with h' | h'
      · simp at h'
      · exact h'

theorem diversityPass_length_le {topN maxPer : Nat} :
    ∀ (l : List (FeedItem × ℚ)) (sel : List FeedItem),
    sel.length ≤ topN → (diversityPass topN maxPer l sel).length ≤ topN
  | [], sel, h => h
  | (item, s) :: rest, sel, h => by
    simp only [diversityPass]
    split
    · exact h
    · split
      · exact diversityPass_length_le rest sel h
      · rename_i hlt _
        have : (sel ++ [item]).length ≤ topN := by
          simp only [List.length_append, List.length_singleton]
          omega
        exact diversityPass_length_le rest (sel ++ [item]) this

theorem backfill_length_le {topN : Nat} :
    ∀ (l : List (FeedItem × ℚ)) (sel : List FeedItem),
    sel.length < topN → (backfill topN l sel).length ≤ topN
  | [], sel, h => Nat.le_of_lt h
  | (item, s) :: rest, sel, h => by
    simp only [backfill]
    by_cases hmem : item ∈ sel
    · simp only [if_pos hmem]
      split
      · exact Nat.le_of_lt h
      · exact backfill_length_le rest sel h
    · simp only [if_neg hmem]
      split
      · simp only [List.length_append, List.length_singleton]
        omega
      · rename_i htop
        push_neg at htop
        exact backfill_length_le rest (sel ++ [item]) htop

theorem ensure_category_diversity_length_le (scored : List (FeedItem × ℚ)) (topN : Nat) :
    (ensure_category_diversity scored topN).length ≤ topN := by
  rw [ensure_category_diversity_eq]
  split
  · simpa using (by assumption : scored.length ≤ topN)
  · split
    · exact backfill_length_le scored _ (by assumption)
    · exact diversityPass_length_le scored [] (Nat.zero_le _)

/-- Claim C1, amended: `select_top_items` treats `topN = 0` as unset
(replacing it by the configured default, because `top_n or
settings.top_n_items` is falsy-defaulting in Python); for the effective
quota it returns at most that many items, all of which carry an image URL,
and an empty input yields an empty result. -/
theorem select_top_items_eq (feeds : List FeedConf) (settingsTopN : Nat)
    (now : Int) (items : List FeedItem) (topN : Nat) :
    select_top_items feeds settingsTopN now items topN =
      if items = [] then []
      else if items.filter hasImage = [] then []
      else ensure_category_diversity (rank_items feeds now (items.filter hasImage))
        (if topN = 0 then settingsTopN else topN) := rfl

theorem select_top_items_amended (feeds : List FeedConf) (settingsTopN : Nat)
    (now : Int) (items : List FeedItem) (topN : Nat) :
    (select_top_items feeds settingsTopN now items topN).length ≤
        (if topN = 0 then settingsTopN else topN) ∧
    (∀ i ∈ select_top_items feeds settingsTopN now items topN, hasImage i = true) ∧
    (items = [] → select_top_items feeds settingsTopN now items topN = []) := by
  refine ⟨?_, ?_, ?_⟩
  · rw [select_top_items_eq]
    split
    · simp
    · split
      · simp
      · exact ensure_category_diversity_length_le _ _
  · intro i hi
    rw [select_top_items_eq] at hi
    split at hi
    · simp at hi
    · split at hi
      · simp at hi
      · have h1 := mem_ensure_category_diversity hi
        have h2 := mem_rank_items h1
        exact (List.mem_filter.mp h2).2
  · intro h
    rw [select_top_items_eq, if_pos h]

/-- Witness for the amended C1 theorem at concrete inputs. -/
def wItemA : FeedItem :=
  { id := ['a', '1'], feed_url := [], title := [], link := [], dsc := none,
    publishedDate := none, image_url := some ['u'], category := ['A'],
    source_name := none }

theorem select_top_items_amended_witness :
    (∀ i ∈ select_top_items [] 5 0 [wItemA] 3, hasImage i = true) ∧
    select_top_items [] 5 0 ([] : List FeedItem) 3 = [] :=
  ⟨(select_top_items_amended [] 5 0 [wItemA] 3).2.1,
   (select_top_items_amended [] 5 0 [] 3).2.2 rfl⟩

/-- Counterexample to claim C1 as stated: with `topN = 0` the selector does
not return the empty list — the falsy `top_n` argument is replaced by the
configured default (5), so a single image-bearing item is selected. -/
theorem select_top_items_topn_zero_cex :
    select_top_items [] 5 0 [wItemA] 0 = [wItemA] ∧
    select_top_items [] 5 0 [wItemA] 0 ≠ [] := by
  constructor
  · decide
  · decide

/-! Lemmas for the diversity invariant (C3). -/

theorem countCat_append (c : List Char) (sel : List FeedItem) (item : FeedItem) :
    countCat c (sel ++ [item]) =
      countCat c sel + (if item.category = c then 1 else 0) := by
  simp only [countCat, List.filter_append]
  split <;> rename_i h <;> simp [h]

theorem diversityPass_cap {topN maxPer : Nat} :
    ∀ (l : List (FeedItem × ℚ)) (sel : List FeedItem),
    (∀ c, countCat c sel ≤ maxPer) →
    ∀ c, countCat c (diversityPass topN maxPer l sel) ≤ maxPer
  | [], sel, h, c => h c
  | (item, s) :: rest, sel, h, c => by
    simp only [diversityPass]
    split
    · exact h c
    · split
      · exact diversityPass_cap rest sel h c
      · rename_i hcnt
        push_neg at hcnt
        refine diversityPass_cap rest (sel ++ [item]) ?_ c
        intro c'
        rw [countCat_append]
        split
        · rename_i hc
          subst hc
          omega
        · simpa using h c'

theorem diversityPass_length_le_total (topN maxPer : Nat) :
    ∀ (l : List (FeedItem × ℚ)) (sel : List FeedItem),
    (diversityPass topN maxPer l sel).length ≤ sel.length + l.length
  | [], sel => by simp [diversityPass]
  | (item, s) :: rest, sel => by
    simp only [diversityPass]
    split
    · simp
    · split
      · have := diversityPass_length_le_total topN maxPer rest sel
        simp only [List.length_cons]
        omega
      · have := diversityPass_length_le_total topN maxPer rest (sel ++ [item])
        simp only [List.length_cons, List.length_append, List.length_nil,
          List.length_singleton] at this ⊢
        omega

theorem diversityPass_eq_of_full (topN maxPer : Nat) :
    ∀ (l : List (FeedItem × ℚ)) (sel : List FeedItem),
    (diversityPass topN maxPer l sel).length = sel.length + l.length →
    diversityPass topN maxPer l sel = sel ++ l.map Prod.fst
  | [], sel, _ => by simp [diversityPass]
  | (item, s) :: rest, sel, h => by
    simp only [diversityPass] at h ⊢
    by_cases h1 : topN ≤ sel.length
    · rw [if_pos h1] at h
      simp only [List.length_cons] at h
      omega
    · rw [if_neg h1] at h ⊢
      by_cases h2 : maxPer ≤ countCat item.category sel
      · rw [if_pos h2] at h
        exfalso
        have := diversityPass_length_le_total topN maxPer rest sel
        simp only [List.length_cons] at h
        omega
      · rw [if_neg h2] at h ⊢
        have hrec := diversityPass_eq_of_full topN maxPer rest (sel ++ [item]) (by
          simp only [List.length_append, List.length_nil, List.length_singleton,
            List.length_cons] at h ⊢
          omega)
        rw [hrec]
        simp

/-- Claim C3: for any run with at least two categories present and
`topN ≥ 4`, whenever some category's contribution to the selection exceeds
`max 2 (topN / 2)`, the scarcity condition holds: the cap-respecting
diversity pass admitted strictly fewer than `topN` candidates (so the
excess can only come from the uncapped pass-through or backfill). -/
theorem ensure_category_diversity_cap (scored : List (FeedItem × ℚ)) (topN : Nat)
    (c : List Char) (htop : 4 ≤ topN)
    (hcats : 2 ≤ ((scored.map (fun p => p.1.category)).dedup).length)
    (hviol : max 2 (topN / 2) < countCat c (ensure_category_diversity scored topN)) :
    (diversityPass topN (max 2 (topN / 2)) scored []).length < topN := by
  set maxPer := max 2 (topN / 2) with hmp
  have hcap : ∀ c', countCat c' (diversityPass topN maxPer scored []) ≤ maxPer :=
    diversityPass_cap scored [] (fun c' => by simp [countCat])
  rw [ensure_category_diversity_eq, ← hmp] at hviol
  split at hviol
  · rename_i hle
    by_contra hge
    push_neg at hge
    have h1 := diversityPass_length_le_total topN maxPer scored []
    simp only [List.length_nil, Nat.zero_add] at h1
    have heq : (diversityPass topN maxPer scored []).length = 0 + scored.length := by
      simp only [Nat.zero_add]
      omega
    have := diversityPass_eq_of_full topN maxPer scored [] heq
    simp only [List.nil_append] at this
    rw [← this] at hviol
    exact absurd hviol (Nat.not_lt.mpr (hcap c))
  · split at hviol
    · assumption
    · exact absurd hviol (Nat.not_lt.mpr (hcap c))

/-- Witness items for the C3 theorem: three items of category A and one of
category B, quota 4 — the whole list passes through uncapped, category A
exceeds the cap of 2, and indeed the capped pass admits only 3 < 4. -/
def wItemCat (i : List Char) (cat : List Char) : FeedItem :=
  { id := i, feed_url := [], title := [], link := [], dsc := none,
    publishedDate := none, image_url := some ['u'], category := cat,
    source_name := none }

/-- Concrete scored list for the C3 witness. -/
def c3Scored : List (FeedItem × ℚ) :=
  [(wItemCat ['1'] ['A'], 1), (wItemCat ['2'] ['A'], 1),
   (wItemCat ['3'] ['A'], 1), (wItemCat ['4'] ['B'], 1)]

theorem ensure_category_diversity_cap_witness :
    4 ≤ 4 ∧
    2 ≤ ((c3Scored.map (fun p => p.1.category)).dedup).length ∧
    max 2 (4 / 2) < countCat ['A'] (ensure_category_diversity c3Scored 4) ∧
    (diversityPass 4 (max 2 (4 / 2)) c3Scored []).length < 4 :=
  ⟨by decide, by decide, by decide,
   ensure_category_diversity_cap c3Scored 4 ['A'] (by decide) (by decide) (by decide)⟩

/-! Purity of the scorer (C4). -/

/-- Item used in the C4 counterexample: carries a publication timestamp. -/
def c4Item : FeedItem :=
  { id := ['c', '4'], feed_url := [], title := [], link := [], dsc := none,
    publishedDate := some 0, image_url := none, category := ['A'],
    source_name := none }

/-- Item used in the C4 witness: no publication timestamp. -/
def c4ItemNoDate : FeedItem :=
  { id := ['c', '4', 'n'], feed_url := [], title := [], link := [], dsc := none,
    publishedDate := none, image_url := none, category := ['A'],
    source_name := none }

/-- Counterexample to claim C4 as stated: `calculate_score` reads the
current clock (`datetime.utcnow()` inside `_calculate_recency_score`), so
the same item under the same static configuration scores differently at
two different times (here 0.85 at age 0 versus 0.49 at age 10^6 s). -/
theorem calculate_score_clock_cex :
    calculate_score [] 0 c4Item ≠ calculate_score [] 1000000 c4Item := by
  norm_num [c4Item, calculate_score, calculate_recency_score,
    description_quality_score, get_source_priority, has_image_bonus, hasImage,
    pyRound4, Int.fract]

/-- Claim C4, amended: `calculate_score` is deterministic as a function of
the item, the static configuration, and the current clock time; the clock
is a genuine input (see the counterexample), but for items without a
publication timestamp the score is clock-independent. -/
theorem calculate_score_amended (feeds : List FeedConf) (item : FeedItem)
    (now1 now2 : Int) (h : item.publishedDate = none) :
    calculate_score feeds now1 item = calculate_score feeds now2 item := by
  simp [calculate_score, calculate_recency_score, h]

theorem calculate_score_amended_witness :
    calculate_score [] 5 c4ItemNoDate = calculate_score [] 99 c4ItemNoDate :=
  calculate_score_amended [] c4ItemNoDate 5 99 rfl

/-! Claim C8: the score formula, stated from the spec's wording. -/

/-- Recency as the spec words it: piecewise step function of
`now - published_date`; missing timestamp scores 0.5. -/
def spec_recency (now : Int) (item : FeedItem) : ℚ :=
  match item.publishedDate with
  | none => 1/2
  | some pub =>
    let age : Int := now - pub
    if age < 3600 then 1
    else if age < 21600 then 9/10
    else if age < 43200 then 8/10
    else if age < 86400 then 7/10
    else if age < 172800 then 1/2
    else if age < 604800 then 3/10
    else 1/10

/-- Description quality as the spec words it: length buckets, with a
missing (falsy, hence also empty) description scoring 0.5. -/
def spec_quality (item : FeedItem) : ℚ :=
  match item.dsc with
  | none => 1/2
  | some d =>
    if d = [] then 1/2
    else if d.length < 50 then 6/10
    else if d.length < 100 then 8/10
    else if d.length < 500 then 1
    else 9/10

/-- Image bonus as the spec words it: 1.2 with an image URL, else 1.0. -/
def spec_image_bonus (item : FeedItem) : ℚ :=
  if hasImage item then 12/10 else 1

/-- Source priority as the spec words it: the per-category configured
priority, defaulting to 1.0. -/
def spec_source_priority (feeds : List FeedConf) (item : FeedItem) : ℚ :=
  match feeds.find? (fun f => f.category = item.category) with
  | some f => f.priority.getD 1
  | none => 1

/-- Claim C8: `calculate_score` returns
`round((0.4*recency + 0.3*quality + 0.3) * source_priority * image_bonus, 4)`
with the piecewise recency and quality sub-scores, image bonus and
per-category priority described by the spec. -/
theorem calculate_score_formula (feeds : List FeedConf) (now : Int) (item : FeedItem) :
    calculate_score feeds now item =
      pyRound4 (((4/10) * spec_recency now item + (3/10) * spec_quality item + 3/10) *
        spec_source_priority feeds item * spec_image_bonus item) := by
  have h1 : spec_recency now item = calculate_recency_score now item := rfl
  have h2 : spec_quality item = description_quality_score item := rfl
  have h3 : spec_source_priority feeds item = get_source_priority feeds item := rfl
  have h4 : spec_image_bonus item = has_image_bonus item := rfl
  unfold calculate_score
  rw [h1, h2, h3, h4]
  ring_nf

/-! Summarizer response validation (src/summarizer/gemini_client.py). -/

/-- Python whitespace (`str.isspace` / regex class backslash-s for str
patterns): ASCII whitespace, the C1 separators, and the Unicode spaces. -/
def pySpace (c : Char) : Bool :=
  decide (c.toNat = 32 ∨ (9 ≤ c.toNat ∧ c.toNat ≤ 13) ∨ (28 ≤ c.toNat ∧ c.toNat ≤ 31) ∨
    c.toNat = 133 ∨ c.toNat = 160 ∨ c.toNat = 5760 ∨ (8192 ≤ c.toNat ∧ c.toNat ≤ 8202) ∨
    c.toNat = 8232 ∨ c.toNat = 8233 ∨ c.toNat = 8239 ∨ c.toNat = 8287 ∨ c.toNat = 12288)

/-- Python `str.strip()`: remove whitespace from both ends. -/
def pyStrip (s : List Char) : List Char :=
  ((s.dropWhile pySpace).reverse.dropWhile pySpace).reverse

/-- Python `str.strip("#")`: remove hash characters from both ends. -/
def stripHashes (s : List Char) : List Char :=
  ((s.dropWhile (fun c => c = '#')).reverse.dropWhile (fun c => c = '#')).reverse

/-- Emoji code-point ranges removed by `_clean_text`. -/
def isEmoji (c : Char) : Bool :=
  decide ((0x1F600 ≤ c.toNat ∧ c.toNat ≤ 0x1F64F) ∨
    (0x1F300 ≤ c.toNat ∧ c.toNat ≤ 0x1F5FF) ∨
    (0x1F680 ≤ c.toNat ∧ c.toNat ≤ 0x1F6FF) ∨
    (0x1F1E0 ≤ c.toNat ∧ c.toNat ≤ 0x1F1FF) ∨
    (0x2702 ≤ c.toNat ∧ c.toNat ≤ 0x27B0) ∨
    (0x24C2 ≤ c.toNat ∧ c.toNat ≤ 0x1F251) ∨
    (0x1F900 ≤ c.toNat ∧ c.toNat ≤ 0x1F9FF) ∨
    (0x1FA00 ≤ c.toNat ∧ c.toNat ≤ 0x1FA6F))

/-- One boilerplate pattern, given lowercased: `re.sub(pattern, "", s,
flags=IGNORECASE)` for an anchored pattern of the shape `X:` followed by
optional whitespace replaces at most one occurrence at the start. -/
def stripBoiler1 (p : List Char) (s : List Char) : List Char :=
  if (s.take p.length).map Char.toLower = p then (s.drop p.length).dropWhile pySpace
  else s

/-- Lowercased boilerplate line-prefixes of `_clean_text`, applied in the
order the Python list holds them (the final all-caps variant lowercases to
a duplicate of the third entry). -/
def boilerplate : List (List Char) :=
  [['b','r','i','e','f',' ','s','u','m','m','a','r','y',':'],
   ['l','o','n','g','e','r',' ','s','u','m','m','a','r','y',':'],
   ['b','r','e','a','k','i','n','g',':'],
   ['b','r','e','a','k','i','n','g',' ','n','e','w','s',':'],
   ['n','e','w','s',':'],
   ['u','p','d','a','t','e',':'],
   ['a','l','e','r','t',':'],
   ['b','r','e','a','k','i','n','g',':']]

/-- Collapse every maximal whitespace run into one space (`re.sub` of
one-or-more whitespace with a single space); the flag records whether we
are inside a run whose space was already emitted. -/
def collapseWsAux : Bool → List Char → List Char
  | _, [] => []
  | inRun, c :: rest =>
    if pySpace c then
      if inRun then collapseWsAux true rest
      else ' ' :: collapseWsAux true rest
    else c :: collapseWsAux false rest

/-- GeminiSummarizer._clean_text: strip boilerplate prefixes, remove emoji,
collapse whitespace runs and strip the ends. -/
def clean_text (s : List Char) : List Char :=
  if s = [] then s
  else pyStrip (collapseWsAux false
    ((boilerplate.foldl (fun acc p => stripBoiler1 p acc) s).filter (fun c => !isEmoji c)))

/-- Index of the last occurrence of a character (`str.rfind`, with the
missing case as `none` instead of -1). -/
def lastIdxOf (t : Char) : List Char → Option Nat
  | [] => none
  | a :: rest =>
    match lastIdxOf t rest with
    | some i => some (i + 1)
    | none => if a = t then some 0 else none

/-- Caption length policy of `_parse_batch_response` / `_parse_response`
(after cleaning): over 1400 characters, hard-truncate to 1400 and back up
to the last period when its index exceeds 1200; under 1200, drop the item. -/
def caption_policy (caption : List Char) : Option (List Char) :=
  if 1400 < caption.length then
    let c := caption.take 1400
    match lastIdxOf '.' c with
    | some p => if 1200 < p then some (c.take (p + 1)) else some c
    | none => some c
  else if caption.length < 1200 then none
  else some caption

/-- Sentence-ending punctuation of the reflow splitter. -/
def isPunct (c : Char) : Bool :=
  decide (c = '.' ∨ c = '!' ∨ c = '?')

/-- Whether a list starts with a whitespace character. -/
def headIsWs : List Char → Bool
  | [] => false
  | d :: _ => pySpace d

/-- Splitter for `re.split` on whitespace runs preceded by sentence-ending
punctuation: `cur` accumulates the current sentence reversed, and the flag
records that we are consuming the whitespace run of a split. -/
def sentSplitAux : Bool → List Char → List Char → List (List Char)
  | _, cur, [] => [cur.reverse]
  | true, cur, c :: rest =>
    if pySpace c then sentSplitAux true cur rest
    else if isPunct c && headIsWs rest then (c :: cur).reverse :: sentSplitAux true [] rest
    else sentSplitAux false (c :: cur) rest
  | false, cur, c :: rest =>
    if isPunct c && headIsWs rest then (c :: cur).reverse :: sentSplitAux true [] rest
    else sentSplitAux false (c :: cur) rest

/-- Whether the text contains a blank-line paragraph break. -/
def hasDblNl : List Char → Bool
  | '\n' :: '\n' :: _ => true
  | _ :: rest => hasDblNl rest
  | [] => false

/-- Greedy paragraph grouping of `_format_caption_paragraphs`: sentences
are accumulated until the target character share is reached, except that
only `numP - 1` paragraphs may be closed this way; the remainder forms the
final paragraph. -/
def buildParas (target numP : Nat) :
    List (List Char) → List (List Char) → Nat → List (List Char) → List (List Char)
  | [], paras, _, cur => if cur = [] then paras else paras ++ [List.intercalate [' '] cur]
  | s :: rest, paras, curLen, cur =>
    let cur' := cur ++ [s]
    let curLen' := curLen + s.length
    if target ≤ curLen' ∧ paras.length < numP - 1 then
      buildParas target numP rest (paras ++ [List.intercalate [' '] cur']) 0 []
    else buildParas target numP rest paras curLen' cur'

/-- GeminiSummarizer._format_caption_paragraphs: leave captions that are
empty or already paragraph-structured alone; otherwise split into
sentences and regroup them into paragraphs joined by blank lines. -/
def format_caption_paragraphs (caption : List Char) (numP : Nat) : List Char :=
  if caption = [] ∨ hasDblNl caption then caption
  else
    let sentences := sentSplitAux false [] (pyStrip caption)
    if sentences.length ≤ numP then caption
    else
      let target := caption.length / numP
      List.intercalate ['\n', '\n'] (buildParas target numP sentences [] 0 [])

/-- Shape of the `hashtags` field in a decoded backend object: either a
JSON string (comma-joined) or an array of strings. -/
inductive HashtagsVal where
  | hstr : List Char → HashtagsVal
  | hlist : List (List Char) → HashtagsVal
deriving DecidableEq, Repr

/-- Per-tag cleaning of the final comprehension: strip whitespace, strip
surrounding hashes, then delete every space character. -/
def procTag (t : List Char) : List Char :=
  (stripHashes (pyStrip t)).filter (fun c => c ≠ ' ')

/-- Hashtags normalization of `_parse_batch_response` / `_parse_response`:
a comma-joined string is split and pre-stripped; then tags blank after a
whitespace strip are dropped, every survivor is cleaned by `procTag`, and
the list is capped at 15. -/
def process_hashtags (h : HashtagsVal) : List (List Char) :=
  let tags : List (List Char) :=
    match h with
    | .hstr s => (s.splitOn ',').map (fun t => stripHashes (pyStrip t))
    | .hlist l => l
  (((tags.filter (fun t => pyStrip t ≠ [])).map procTag).take 15)

/-- One decoded object of the backend's JSON array: each field as the
`dict.get` sees it (absent keys are `none`). -/
structure ItemData where
  title : Option (List Char)
  dsc : Option (List Char)
  caption : Option (List Char)
  hashtags : Option HashtagsVal
  source : Option (List Char)
deriving DecidableEq, Repr

/-- SummaryResult of src/feeds/models.py. -/
structure SummaryResult where
  title : List Char
  dsc : List Char
  caption : List Char
  hashtags : List (List Char)
  source : List Char
  feed_item_id : List Char
deriving DecidableEq, Repr

/-- Default source text. -/
def unknownSource : List Char := ['U', 'n', 'k', 'n', 'o', 'w', 'n']

/-- Per-item body of the loop in `_parse_batch_response` (lines 472-528):
title policy, advisory description check, strict caption policy (a too-thin
caption yields `none`, the Python `continue`), paragraph reflow, hashtag
normalization and source default. -/
def process_item (d : ItemData) (item : FeedItem) : Option SummaryResult :=
  let generated_title := clean_text (d.title.getD [])
  let title := if item.title.length ≤ 65 then item.title.take 65
    else generated_title.take 65
  let dsc := clean_text (d.dsc.getD [])
  let caption0 := clean_text (d.caption.getD [])
  match caption_policy caption0 with
  | none => none
  | some cap =>
    let caption := format_caption_paragraphs cap 4
    let hashtags := process_hashtags (d.hashtags.getD (.hlist []))
    let source := clean_text (d.source.getD unknownSource)
    some { title := title, dsc := dsc, caption := caption, hashtags := hashtags,
           source := source, feed_item_id := item.id }

/-- Positional pairing of `_parse_batch_response`: `zip(data_array, items)`
with per-item results appended unless the item was skipped. -/
def parse_batch_data (ds : List ItemData) (items : List FeedItem) :
    List SummaryResult :=
  (ds.zip items).filterMap (fun p => process_item p.1 p.2)

/-! Retry / fallback state machine of `summarize_items_batch` (the
single-item `summarize` loop has the identical structure). -/

/-- Outcome of one attempt: the backend call succeeded and the parse
produced a truthy result; it succeeded but parsing yielded a falsy value;
it raised the quota (ResourceExhausted) error; or it raised any other
error. -/
inductive Outcome where
  | success
  | parseFail
  | quota
  | apiError
deriving DecidableEq, Repr

/-- Result of a run: whether it ended in success, and the trace of
exponential-backoff delays (in seconds) slept along the way. -/
structure RunResult where
  ok : Bool
  sleeps : List Nat
deriving DecidableEq, Repr

/-- The retry loop from the state `attempt` with `remaining` loop
iterations left (`remaining = maxRetries - attempt` at entry), on the
model `current`.  Quota on a non-fallback model switches to the fallback
and continues without sleeping; quota on the fallback and any other error
sleep `2 ^ attempt` seconds when further attempts remain; a falsy parse
result loops without sleeping. -/
def runFrom (beh : Nat → List Char → Outcome) (fallbackModel : List Char)
    (maxRetries : Nat) : Nat → Nat → List Char → RunResult
  | _, 0, _ => ⟨false, []⟩
  | attempt, r + 1, current =>
    match beh attempt current with
    | .success => ⟨true, []⟩
    | .parseFail => runFrom beh fallbackModel maxRetries (attempt + 1) r current
    | .quota =>
      if current ≠ fallbackModel then
        runFrom beh fallbackModel maxRetries (attempt + 1) r fallbackModel
      else
        let rest := runFrom beh fallbackModel maxRetries (attempt + 1) r current
        ⟨rest.ok, (if attempt + 1 < maxRetries then [2 ^ attempt] else []) ++ rest.sleeps⟩
    | .apiError =>
      let rest := runFrom beh fallbackModel maxRetries (attempt + 1) r current
      ⟨rest.ok, (if attempt + 1 < maxRetries then [2 ^ attempt] else []) ++ rest.sleeps⟩

/-- The whole `for attempt in range(max_retries)` loop of
`summarize_items_batch`, starting on the primary model. -/
def run_batch (beh : Nat → List Char → Outcome) (primary fallbackModel : List Char)
    (maxRetries : Nat) : RunResult :=
  runFrom beh fallbackModel maxRetries 0 maxRetries primary

/-! Evaluation lemmas: behaviour of the text pipeline on runs of a plain
letter, used to build concrete witnesses without huge kernel reductions. -/

theorem filter_replicate_pos (p : Char → Bool) (a : Char) (h : p a = true) (n : Nat) :
    (List.replicate n a).filter p = List.replicate n a := by
  induction n with
  | zero => rfl
  | succ n ih => simp [List.replicate_succ, List.filter_cons, h, ih]

theorem collapseWsAux_replicate_a (n : Nat) :
    collapseWsAux false (List.replicate n 'a') = List.replicate n 'a' := by
  induction n with
  | zero => rfl
  | succ n ih =>
    simp only [List.replicate_succ, collapseWsAux, ih]
    rw [if_neg (by decide)]

theorem dropWhile_pySpace_replicate_a (n : Nat) :
    (List.replicate n 'a').dropWhile pySpace = List.replicate n 'a' := by
  cases n with
  | zero => rfl
  | succ n => simp only [List.replicate_succ, List.dropWhile_cons]; rw [if_neg (by decide)]

theorem pyStrip_replicate_a (n : Nat) :
    pyStrip (List.replicate n 'a') = List.replicate n 'a' := by
  unfold pyStrip
  rw [dropWhile_pySpace_replicate_a, List.reverse_replicate,
    dropWhile_pySpace_replicate_a, List.reverse_replicate]

theorem stripBoiler1_replicate_a {p : List Char} (hc : ':' ∈ p) (n : Nat) :
    stripBoiler1 p (List.replicate n 'a') = List.replicate n 'a' := by
  unfold stripBoiler1
  rw [List.take_replicate, List.map_replicate,
    (by decide : Char.toLower 'a' = 'a'), if_neg ?_]
  intro h
  have := List.eq_of_mem_replicate (h ▸ hc)
  exact absurd this (by decide)

theorem foldl_stripBoiler_id (s : List Char) :
    ∀ ps : List (List Char), (∀ p ∈ ps, stripBoiler1 p s = s) →
      ps.foldl (fun acc p => stripBoiler1 p acc) s = s
  | [], _ => rfl
  | p :: rest, h => by
    rw [List.foldl_cons, h p (by simp)]
    exact foldl_stripBoiler_id s rest (fun q hq => h q (by simp [hq]))

theorem clean_text_replicate_a (n : Nat) :
    clean_text (List.replicate n 'a') = List.replicate n 'a' := by
  unfold clean_text
  split
  · rfl
  · rw [foldl_stripBoiler_id _ boilerplate ?_,
      filter_replicate_pos (fun c => !isEmoji c) 'a' (by decide) n,
      collapseWsAux_replicate_a, pyStrip_replicate_a]
    intro p hp
    fin_cases hp <;> exact stripBoiler1_replicate_a (by decide) n

theorem lastIdxOf_append_some (t : Char) (l1 l2 : List Char) (i : Nat)
    (h : lastIdxOf t l2 = some i) :
    lastIdxOf t (l1 ++ l2) = some (l1.length + i) := by
  induction l1 with
  | nil => simpa using h
  | cons a rest ih =>
    simp only [List.cons_append, lastIdxOf, List.append_eq, ih, List.length_cons,
      Option.some.injEq]
    omega

theorem lastIdxOf_replicate_none (t a : Char) (hne : t ≠ a) (n : Nat) :
    lastIdxOf t (List.replicate n a) = none := by
  induction n with
  | zero => rfl
  | succ n ih =>
    simp only [List.replicate_succ, lastIdxOf, ih]
    rw [if_neg (fun h => hne h.symm)]

theorem lastIdxOf_append_none (t : Char) (l1 l2 : List Char)
    (h : lastIdxOf t l2 = none) :
    lastIdxOf t (l1 ++ l2) = lastIdxOf t l1 := by
  induction l1 with
  | nil => simpa using h
  | cons a rest ih => simp only [List.cons_append, lastIdxOf, List.append_eq, ih]

/-! Claim C2: caption hard-truncation. -/

theorem caption_policy_eq_of_gt (caption : List Char) (h : 1400 < caption.length) :
    caption_policy caption =
      match lastIdxOf '.' (caption.take 1400) with
      | some p => if 1200 < p then some ((caption.take 1400).take (p + 1))
                  else some (caption.take 1400)
      | none => some (caption.take 1400) := by
  unfold caption_policy
  rw [if_pos h]

theorem caption_policy_find_some (caption : List Char) (p : Nat)
    (h : 1400 < caption.length) (hp : lastIdxOf '.' (caption.take 1400) = some p) :
    caption_policy caption =
      if 1200 < p then some ((caption.take 1400).take (p + 1))
      else some (caption.take 1400) := by
  rw [caption_policy_eq_of_gt caption h, hp]

/-- Claim C2, amended: over 1400 characters the caption is hard-truncated
to its first 1400 characters and then cut after the last period only when
that period sits strictly after offset 1200 (the code compares with
`last_period > 1200`, so a period exactly at offset 1200 does not trigger
the backtrack); otherwise, and when no period exists, the raw 1400-cutoff
is kept. -/
theorem caption_truncation_amended (caption : List Char) (h : 1400 < caption.length) :
    (∀ p, lastIdxOf '.' (caption.take 1400) = some p →
      (1200 < p → caption_policy caption = some ((caption.take 1400).take (p + 1))) ∧
      (p ≤ 1200 → caption_policy caption = some (caption.take 1400))) ∧
    (lastIdxOf '.' (caption.take 1400) = none →
      caption_policy caption = some (caption.take 1400)) := by
  refine ⟨fun p hp => ⟨fun hgt => ?_, fun hle => ?_⟩, fun hn => ?_⟩
  · rw [caption_policy_find_some caption p h hp, if_pos hgt]
  · rw [caption_policy_find_some caption p h hp, if_neg (by omega)]
  · rw [caption_policy_eq_of_gt caption h, hn]

/-- A 1500-character caption whose only period sits at offset 1250, the
spec's clean-truncation example. -/
def c2Good : List Char :=
  (List.replicate 1250 'a' ++ ['.']) ++ List.replicate 249 'a'

theorem c2GoodA_len : (List.replicate 1250 'a' ++ ['.']).length = 1251 := by
  rw [List.length_append, List.length_replicate, List.length_singleton]

theorem c2Good_len : c2Good.length = 1500 := by
  unfold c2Good
  rw [List.length_append, c2GoodA_len, List.length_replicate]

theorem c2Good_take : c2Good.take 1400 =
    (List.replicate 1250 'a' ++ ['.']) ++ List.replicate 149 'a' := by
  unfold c2Good
  rw [List.take_append_eq_append_take, List.take_of_length_le (le_of_eq_of_le c2GoodA_len (by norm_num)),
    c2GoodA_len, List.take_replicate]
  have hmin : min (1400 - 1251) 249 = 149 := by norm_num
  rw [hmin]

theorem c2Good_find : lastIdxOf '.' (c2Good.take 1400) = some 1250 := by
  rw [c2Good_take,
    lastIdxOf_append_none '.' _ _ (lastIdxOf_replicate_none '.' 'a' (by decide) 149),
    lastIdxOf_append_some '.' _ _ 0 (by decide), List.length_replicate]

/-- Witness for the amended C2 theorem: that caption truncates to end
exactly at offset 1251, keeping the period. -/
theorem caption_truncation_amended_witness :
    caption_policy c2Good = some (List.replicate 1250 'a' ++ ['.']) ∧
    (List.replicate 1250 'a' ++ ['.']).length = 1251 := by
  have hlen : 1400 < c2Good.length := by rw [c2Good_len]; norm_num
  have h := ((caption_truncation_amended c2Good hlen).1 1250 c2Good_find).1 (by norm_num)
  refine ⟨?_, c2GoodA_len⟩
  rw [h, c2Good_take, List.take_append_eq_append_take,
    List.take_of_length_le (le_of_eq_of_le c2GoodA_len (by norm_num)),
    c2GoodA_len, List.take_replicate]
  have hmin : min (1251 - 1251) 149 = 0 := by norm_num
  rw [hmin, List.replicate_zero, List.append_nil]

/-- A 1500-character caption whose only period sits exactly at offset 1200. -/
def c2Bad : List Char :=
  (List.replicate 1200 'a' ++ ['.']) ++ List.replicate 299 'a'

theorem c2BadA_len : (List.replicate 1200 'a' ++ ['.']).length = 1201 := by
  rw [List.length_append, List.length_replicate, List.length_singleton]

theorem c2Bad_len : c2Bad.length = 1500 := by
  unfold c2Bad
  rw [List.length_append, c2BadA_len, List.length_replicate]

theorem c2Bad_take : c2Bad.take 1400 =
    (List.replicate 1200 'a' ++ ['.']) ++ List.replicate 199 'a' := by
  unfold c2Bad
  rw [List.take_append_eq_append_take, List.take_of_length_le (le_of_eq_of_le c2BadA_len (by norm_num)),
    c2BadA_len, List.take_replicate]
  have hmin : min (1400 - 1201) 299 = 199 := by norm_num
  rw [hmin]

/-- Counterexample to claim C2 as stated: the backtrack condition is
`last_period > 1200`, strictly, not "at or after offset 1200".  Here the
last period of the 1400-cutoff sits exactly at offset 1200, yet the code
keeps the raw 1400-character cutoff instead of ending at offset 1201. -/
theorem caption_truncation_cex :
    lastIdxOf '.' (c2Bad.take 1400) = some 1200 ∧
    caption_policy c2Bad = some (c2Bad.take 1400) ∧
    (c2Bad.take 1400).length = 1400 ∧
    caption_policy c2Bad ≠ some (c2Bad.take 1201) := by
  have hlen : 1400 < c2Bad.length := by rw [c2Bad_len]; norm_num
  have hfind : lastIdxOf '.' (c2Bad.take 1400) = some 1200 := by
    rw [c2Bad_take,
      lastIdxOf_append_none '.' _ _ (lastIdxOf_replicate_none '.' 'a' (by decide) 199),
      lastIdxOf_append_some '.' _ _ 0 (by decide), List.length_replicate]
  have hpol : caption_policy c2Bad = some (c2Bad.take 1400) := by
    rw [caption_policy_find_some c2Bad 1200 hlen hfind, if_neg (by omega)]
  have hlen1400 : (c2Bad.take 1400).length = 1400 := by
    rw [List.length_take, c2Bad_len]
    norm_num
  refine ⟨hfind, hpol, hlen1400, ?_⟩
  rw [hpol]
  intro hcontra
  have h1 := congrArg (fun o => (o.getD []).length) hcontra
  simp only [Option.getD_some] at h1
  rw [hlen1400, List.length_take, c2Bad_len] at h1
  norm_num at h1

/-! Claims C5, C6, C10: the batch validator's pairing behaviour. -/

/-- The cleaned caption of a decoded object, the value the length policy
inspects. -/
def captionOf (d : ItemData) : List Char :=
  clean_text (d.caption.getD [])

/-- A decoded object whose cleaned caption satisfies the strict window
1200-1400, the only rejective field policy. -/
def captionInPolicy (d : ItemData) : Prop :=
  1200 ≤ (captionOf d).length ∧ (captionOf d).length ≤ 1400

theorem caption_policy_in_window (c : List Char) (h1 : 1200 ≤ c.length)
    (h2 : c.length ≤ 1400) : caption_policy c = some c := by
  unfold caption_policy
  rw [if_neg (by omega), if_neg (by omega)]

theorem caption_policy_thin (c : List Char) (h : c.length < 1200) :
    caption_policy c = none := by
  unfold caption_policy
  rw [if_neg (by omega), if_pos h]

theorem process_item_eq_some (d : ItemData) (it : FeedItem)
    (h1 : 1200 ≤ (captionOf d).length) (h2 : (captionOf d).length ≤ 1400) :
    process_item d it = some {
      title := if it.title.length ≤ 65 then it.title.take 65
        else (clean_text (d.title.getD [])).take 65,
      dsc := clean_text (d.dsc.getD []),
      caption := format_caption_paragraphs (captionOf d) 4,
      hashtags := process_hashtags (d.hashtags.getD (.hlist [])),
      source := clean_text (d.source.getD unknownSource),
      feed_item_id := it.id } := by
  have hcp : caption_policy (clean_text (d.caption.getD [])) =
      some (clean_text (d.caption.getD [])) :=
    caption_policy_in_window _ h1 h2
  simp only [process_item, hcp]
  rfl

theorem process_item_eq_none (d : ItemData) (it : FeedItem)
    (h : (captionOf d).length < 1200) : process_item d it = none := by
  have hcp : caption_policy (clean_text (d.caption.getD [])) = none :=
    caption_policy_thin _ h
  simp only [process_item, hcp]

theorem parse_policy_ids : ∀ (ds : List ItemData) (items : List FeedItem),
    ds.length = items.length → (∀ d ∈ ds, captionInPolicy d) →
    (parse_batch_data ds items).map (fun r => r.feed_item_id) = items.map FeedItem.id
  | [], [], _, _ => rfl
  | [], it :: its, h, _ => by simp at h
  | d :: ds', [], h, _ => by simp at h
  | d :: ds', it :: its, h, hp => by
    have hd := hp d (List.mem_cons_self d ds')
    have hrec := parse_policy_ids ds' its (by simpa using h)
      (fun x hx => hp x (List.mem_cons_of_mem d hx))
    unfold parse_batch_data at hrec ⊢
    rw [List.zip_cons_cons, List.filterMap_cons, process_item_eq_some d it hd.1 hd.2]
    simp only [List.map_cons]
    rw [hrec]

/-- Claim C5: for same-length inputs whose cleaned captions are all inside
the 1200-1400 policy window, the batch validator produces exactly one
SummaryResult per item, in input order, with the i-th `feed_item_id` equal
to the i-th item's id. -/
theorem parse_batch_roundtrip (ds : List ItemData) (items : List FeedItem)
    (hlen : ds.length = items.length) (hp : ∀ d ∈ ds, captionInPolicy d) :
    (parse_batch_data ds items).length = items.length ∧
    (parse_batch_data ds items).map (fun r => r.feed_item_id) =
      items.map FeedItem.id := by
  have h := parse_policy_ids ds items hlen hp
  refine ⟨?_, h⟩
  have h2 := congrArg List.length h
  simpa using h2

/-- Synthetic in-policy decoded object: its caption is 1200 letters. -/
def wData : ItemData :=
  { title := none, dsc := none, caption := some (List.replicate 1200 'a'),
    hashtags := none, source := none }

/-- Synthetic decoded object whose caption is 1199 letters, below the
window. -/
def wDataThin : ItemData :=
  { title := none, dsc := none, caption := some (List.replicate 1199 'a'),
    hashtags := none, source := none }

def wFeedA : FeedItem :=
  { id := ['x', '1'], feed_url := [], title := [], link := [], dsc := none,
    publishedDate := none, image_url := some ['u'], category := ['A'],
    source_name := none }

def wFeedB : FeedItem :=
  { id := ['x', '2'], feed_url := [], title := [], link := [], dsc := none,
    publishedDate := none, image_url := some ['u'], category := ['B'],
    source_name := none }

theorem wData_policy : captionInPolicy wData := by
  have h : captionOf wData = List.replicate 1200 'a' := by
    show clean_text (List.replicate 1200 'a') = List.replicate 1200 'a'
    exact clean_text_replicate_a 1200
  unfold captionInPolicy
  rw [h, List.length_replicate]
  exact ⟨le_refl 1200, by norm_num⟩

theorem wDataThin_thin : (captionOf wDataThin).length < 1200 := by
  have h : captionOf wDataThin = List.replicate 1199 'a' := by
    show clean_text (List.replicate 1199 'a') = List.replicate 1199 'a'
    exact clean_text_replicate_a 1199
  rw [h, List.length_replicate]
  norm_num

theorem parse_batch_roundtrip_witness :
    (parse_batch_data [wData, wData] [wFeedA, wFeedB]).length = 2 ∧
    (parse_batch_data [wData, wData] [wFeedA, wFeedB]).map
      (fun r => r.feed_item_id) = [wFeedA.id, wFeedB.id] := by
  have h := parse_batch_roundtrip [wData, wData] [wFeedA, wFeedB] rfl
    (fun d hd => by
      rcases List.mem_cons.mp hd with h1 | h1
      · rw [h1]; exact wData_policy
      · rcases List.mem_cons.mp h1 with h2 | h2
        · rw [h2]; exact wData_policy
        · simp at h2)
  exact ⟨h.1.trans rfl, h.2.trans rfl⟩

/-- Claim C6: a single caption below 1200 cleaned characters drops exactly
its own item — the validator produces no result for it, while every other
in-policy item of the same batch still yields its result, in order. -/
theorem parse_batch_thin_drop (ds1 ds2 : List ItemData) (items1 items2 : List FeedItem)
    (d : ItemData) (it : FeedItem)
    (h1 : ds1.length = items1.length) (h2 : ds2.length = items2.length)
    (hp1 : ∀ x ∈ ds1, captionInPolicy x) (hp2 : ∀ x ∈ ds2, captionInPolicy x)
    (hthin : (captionOf d).length < 1200) :
    (parse_batch_data (ds1 ++ d :: ds2) (items1 ++ it :: items2)).map
        (fun r => r.feed_item_id) =
      (items1 ++ items2).map FeedItem.id := by
  unfold parse_batch_data
  rw [List.zip_append h1, List.filterMap_append, List.zip_cons_cons,
    List.filterMap_cons, process_item_eq_none d it hthin, List.map_append]
  have e1 := parse_policy_ids ds1 items1 h1 hp1
  have e2 := parse_policy_ids ds2 items2 h2 hp2
  unfold parse_batch_data at e1 e2
  rw [e1, e2, List.map_append]

theorem parse_batch_thin_drop_witness :
    (parse_batch_data [wData, wDataThin] [wFeedA, wFeedB]).map
      (fun r => r.feed_item_id) = [wFeedA.id] := by
  have h := parse_batch_thin_drop [wData] [] [wFeedA] [] wDataThin wFeedB
    rfl rfl
    (fun x hx => by
      rcases List.mem_cons.mp hx with h1 | h1
      · rw [h1]; exact wData_policy
      · simp at h1)
    (fun x hx => by simp at hx)
    wDataThin_thin
  exact h.trans rfl

/-- Generic pairing fact: zipping ignores whatever lies beyond the other
list's length. -/
theorem zip_take_self {α β : Type} :
    ∀ (ds : List α) (items : List β),
      ds.zip items = (ds.take items.length).zip items
  | [], _ => by simp
  | d :: ds', [] => by simp
  | d :: ds', it :: its => by
    rw [List.zip_cons_cons, List.length_cons, List.take_succ_cons,
      List.zip_cons_cons, ← zip_take_self ds' its]

/-- Claim C10: the batch validator returns at most one result per
originating item and at most one per decoded object; extra decoded objects
beyond the number of items are ignored (pairing only the first `N`), and a
short array simply yields fewer pairings, never an error. -/
theorem parse_batch_bounds (ds : List ItemData) (items : List FeedItem) :
    (parse_batch_data ds items).length ≤ items.length ∧
    (parse_batch_data ds items).length ≤ ds.length ∧
    parse_batch_data ds items = parse_batch_data (ds.take items.length) items := by
  refine ⟨?_, ?_, ?_⟩
  · calc (parse_batch_data ds items).length ≤ (ds.zip items).length :=
        List.length_filterMap_le _ _
      _ ≤ items.length := by rw [List.length_zip]; omega
  · calc (parse_batch_data ds items).length ≤ (ds.zip items).length :=
        List.length_filterMap_le _ _
      _ ≤ ds.length := by rw [List.length_zip]; omega
  · unfold parse_batch_data
    rw [← zip_take_self ds items]

/-! Claim C9: hashtag normalization. -/

/-- Counterexample to claim C9 as stated: a tag consisting of a single
hash becomes the empty string (it survives the blank filter, which tests
the whitespace-strip only, and is then reduced to nothing by the hash
strip), and a tag mixing hashes and spaces can keep a leading hash exposed
by the space removal.  Both land in the output. -/
theorem process_hashtags_cex :
    process_hashtags (HashtagsVal.hlist [['#'], ['#', ' ', '#', 'a']]) =
      [[], ['#', 'a']] ∧
    [] ∈ process_hashtags (HashtagsVal.hlist [['#'], ['#', ' ', '#', 'a']]) ∧
    ['#', 'a'] ∈ process_hashtags (HashtagsVal.hlist [['#'], ['#', ' ', '#', 'a']]) := by
  refine ⟨?_, ?_, ?_⟩ <;> decide

/-- Claim C9, amended: the output holds at most 15 tags and no output tag
contains a space character (comma-joined strings are split first, tags
blank after a whitespace strip are dropped, surrounding hashes are
stripped); however a tag may end up empty or with a leading hash when the
original consisted of hashes and spaces only or interleaved them. -/
theorem process_hashtags_amended (h : HashtagsVal) :
    (process_hashtags h).length ≤ 15 ∧
    ∀ t ∈ process_hashtags h, ' ' ∉ t := by
  constructor
  · exact List.length_take_le 15 _
  · intro t ht
    unfold process_hashtags at ht
    have ht2 := (List.take_sublist 15 _).subset ht
    obtain ⟨u, hu, rfl⟩ := List.mem_map.mp ht2
    intro hmem
    have := (List.mem_filter.mp hmem).2
    simp at this

theorem process_hashtags_amended_witness :
    (process_hashtags (HashtagsVal.hlist [['a', ' ', 'b']])).length ≤ 15 ∧
    ' ' ∉ (['a', 'b'] : List Char) :=
  ⟨(process_hashtags_amended (HashtagsVal.hlist [['a', ' ', 'b']])).1,
   (process_hashtags_amended (HashtagsVal.hlist [['a', ' ', 'b']])).2
     ['a', 'b'] (by decide)⟩

/-! Claim C7: the retry / fallback state machine. -/

/-- Claim C7: a quota error while not yet on the fallback model switches
to the fallback and re-enters the loop immediately, prepending no backoff
delay; a quota error on the fallback model, and any other backend error,
prepend a `2 ^ attempt` seconds delay when attempts remain; and in the
spec's scenario (quota on the primary first attempt, success on the
fallback second attempt) the whole call succeeds with an empty delay
trace. -/
theorem retry_fallback (beh : Nat → List Char → Outcome)
    (primary fb : List Char) (mr : Nat) :
    (∀ attempt r current, current ≠ fb → beh attempt current = Outcome.quota →
      runFrom beh fb mr attempt (r + 1) current =
        runFrom beh fb mr (attempt + 1) r fb) ∧
    (∀ attempt r, beh attempt fb = Outcome.quota → attempt + 1 < mr →
      runFrom beh fb mr attempt (r + 1) fb =
        ⟨(runFrom beh fb mr (attempt + 1) r fb).ok,
         2 ^ attempt :: (runFrom beh fb mr (attempt + 1) r fb).sleeps⟩) ∧
    (∀ attempt r current, beh attempt current = Outcome.apiError → attempt + 1 < mr →
      runFrom beh fb mr attempt (r + 1) current =
        ⟨(runFrom beh fb mr (attempt + 1) r current).ok,
         2 ^ attempt :: (runFrom beh fb mr (attempt + 1) r current).sleeps⟩) ∧
    (2 ≤ mr → primary ≠ fb → beh 0 primary = Outcome.quota →
      beh 1 fb = Outcome.success → run_batch beh primary fb mr = ⟨true, []⟩) := by
  refine ⟨fun attempt r current hne hq => ?_, fun attempt r hq hlt => ?_,
    fun attempt r current he hlt => ?_, fun hmr hne hq0 hs1 => ?_⟩
  · simp only [runFrom, hq]
    rw [if_pos hne]
  · simp only [runFrom, hq]
    rw [if_neg (fun hh => hh rfl), if_pos hlt]
    rfl
  · simp only [runFrom, he]
    rw [if_pos hlt]
    rfl
  · obtain ⟨m, rfl⟩ : ∃ m, mr = m + 2 := ⟨mr - 2, by omega⟩
    unfold run_batch
    show runFrom beh fb (m + 2) 0 (m + 1 + 1) primary = ⟨true, []⟩
    simp only [runFrom, hq0]
    rw [if_pos hne]
    simp only [runFrom, hs1]

/-- Backend behaviour for the C7 witness: the primary model always hits
the quota, every other model succeeds. -/
def c7beh : Nat → List Char → Outcome :=
  fun _ m => if m = ['p'] then Outcome.quota else Outcome.success

theorem retry_fallback_witness :
    run_batch c7beh ['p'] ['f'] 3 = ⟨true, []⟩ :=
  (retry_fallback c7beh ['p'] ['f'] 3).2.2.2 (by norm_num) (by decide)
    (by decide) (by decide)

end BlogSummarizer
